import Mathlib

/-
Shallow embedding of the fs-backed cache module of infinyon/rust-cache.

Two variants of the module exist in the repository: `src/fsCache/index.ts`
(with `getCacheEntry`, which sorts directory children by mtime) and the
unnamed variant (with `getRestoreKey`, where the sort is commented out and
the matched key itself is returned).  Both are embedded below.

External collaborators are modelled as parameters:
  - the sha256 hex digest is an arbitrary function `hash : String → String`
    (claims about the fingerprint are stated either about the pre-hash
    joined component string, or under an injectivity hypothesis on `hash`);
  - the file system is `fs : String → Option (List String)` giving, for a
    directory path, `some children` when `readdir` succeeds and `none`
    when it throws, and `mtime : String → Int` for `statSync(..).mtimeMs`;
  - the tar codec / extraction outcome is an `Except` value;
  - `process.env` derived configuration (repository, cache dir, platform)
    is an explicit `Env` record.
JavaScript exceptions are `JsError` values carrying the `name` used by the
`typedError.name ===` dispatch of the source; a thrown value propagates as
`Except.error` and a caught one disappears into the result of the caller.
-/

/-- A JavaScript `Error`-like value: the source dispatches on `e.name`. -/
structure JsError where
  name : String
  message : String
  deriving DecidableEq, Repr

deriving instance DecidableEq for Except

/-- Builds the `ValidationError` subclass (its constructor sets `name`). -/
def validationError (msg : String) : JsError :=
  { name := "ValidationError", message := msg }

/-- Builds a plain `new Error(msg)` (its `name` is `"Error"`). -/
def plainError (msg : String) : JsError :=
  { name := "Error", message := msg }

/-- Log channel used by `core.info` / `core.warning` / `core.debug`. -/
inductive LogLevel where
  | debug
  | info
  | warning
  deriving DecidableEq, Repr

/-- JavaScript `Array.prototype.join(sep)`: empty array gives `""`,
singleton gives the element, otherwise elements interleaved with `sep`. -/
def joinWith (sep : String) : List String → String
  | [] => ""
  | [a] => a
  | a :: b :: rest => a ++ sep ++ joinWith sep (b :: rest)

/-- Embeds `checkPaths` from both variants: an empty path list throws
`ValidationError`. -/
def checkPaths (paths : List String) : Except JsError Unit :=
  if paths.isEmpty then
    .error (validationError
      "Path Validation Error: At least one directory or file path is required")
  else
    .ok ()

/-- Embeds `checkKey`: a key longer than 512 characters throws
`ValidationError`, then a key failing the regex `^[^,]*$` (i.e. containing
a comma) throws `ValidationError`. -/
def checkKey (key : String) : Except JsError Unit :=
  if 512 < key.length then
    .error (validationError
      ("Key Validation Error: " ++ key ++ " cannot be larger than 512 characters."))
  else if key.data.contains ',' then
    .error (validationError
      ("Key Validation Error: " ++ key ++ " cannot contain commas."))
  else
    .ok ()

/-- Embeds the `for (const key of keys) { checkKey(key); }` loop of
`restoreCache`: the error of the first failing key propagates. -/
def checkKeys : List String → Except JsError Unit
  | [] => .ok ()
  | k :: rest =>
    match checkKey k with
    | .error e => .error e
    | .ok _ => checkKeys rest

/-- The `versionSalt` constant of both variants. -/
def versionSalt : String := "1.0"

/-- Environment-derived configuration read inside the source functions:
the digest function, `process.env.GITHUB_REPOSITORY`, the backend root
(`RUST_CACHE_DIR` / `INF_RUNNER_CACHE_DIR` with their defaults), and
whether `process.platform === "win32"`. -/
structure Env where
  hash : String → String
  repository : String
  cacheDir : String
  isWin : Bool

/-- The components `getCacheVersion` pushes after copying `paths`:
the compression method when present, `"windows-only"` on win32 unless
cross-OS archives are enabled, and the fixed salt. -/
def versionSuffix (comp : Option String) (isWin crossOs : Bool) : List String :=
  (match comp with
   | some c => [c]
   | none => []) ++
  (if isWin && !crossOs then ["windows-only"] else []) ++
  [versionSalt]

/-- The full component list `getCacheVersion` joins: `paths.slice()`
followed by the pushed suffix components. -/
def getCacheVersionComponents (paths : List String) (comp : Option String)
    (isWin crossOs : Bool) : List String :=
  paths ++ versionSuffix comp isWin crossOs

/-- The string `components.join("|")` that `getCacheVersion` feeds to the
sha256 digest. -/
def getCacheVersionInput (paths : List String) (comp : Option String)
    (isWin crossOs : Bool) : String :=
  joinWith "|" (getCacheVersionComponents paths comp isWin crossOs)

/-- Embeds `getCacheVersion`: the hex sha256 digest (modelled by the
parameter `hash`) of the joined component list. -/
def getCacheVersion (hash : String → String) (paths : List String)
    (comp : Option String) (isWin crossOs : Bool) : String :=
  hash (getCacheVersionInput paths comp isWin crossOs)

/-- Embeds `getPrefix`: `["cache", repository, version].join("/")`. -/
def getPrefixOf (env : Env) (paths : List String) (comp : Option String)
    (crossOs : Bool) : String :=
  joinWith "/" ["cache", env.repository,
    getCacheVersion env.hash paths comp env.isWin crossOs]

/-- The per-key directory `[cacheDir, prefix, restoreKey].join("/")`
probed by the lookup loop of both variants. -/
def restoreDirOf (env : Env) (paths : List String) (comp : Option String)
    (crossOs : Bool) (k : String) : String :=
  joinWith "/" [env.cacheDir, getPrefixOf env paths comp crossOs, k]

/-- Embeds `getRestoreKey` of the unnamed variant: walk the keys in order;
for each, `readdir` the directory of the key; a throwing `readdir` (modelled by
`fs dir = none`) is caught, logged and the loop continues; the first key
whose listing is non-empty is returned; otherwise `null`. -/
def getRestoreKey (env : Env) (fs : String → Option (List String))
    (keys paths : List String) (comp : Option String) (crossOs : Bool) :
    Option String :=
  match keys with
  | [] => none
  | k :: rest =>
    match fs (restoreDirOf env paths comp crossOs k) with
    | some files =>
      if files.isEmpty then getRestoreKey env fs rest paths comp crossOs
      else some k
    | none => getRestoreKey env fs rest paths comp crossOs

/-- Stable insertion used to model `Array.prototype.sort` with a
consistent comparator (the ECMAScript sort is stable and orders by the
sign of the comparator). -/
def insertJs (le : String → String → Bool) (x : String) : List String → List String
  | [] => [x]
  | y :: ys => if le x y then x :: y :: ys else y :: insertJs le x ys

/-- Stable sort modelling `files.sort(comparator)` for a comparator that
returns `mtime a - mtime b` (ascending order, ties kept stable). -/
def sortJs (le : String → String → Bool) : List String → List String
  | [] => []
  | x :: xs => insertJs le x (sortJs le xs)

/-- The record returned by `getCacheEntry` in the fsCache variant. -/
structure ArtifactCacheEntry where
  cacheKey : String
  archiveLocation : String
  deriving DecidableEq, Repr

/-- Embeds `getCacheEntry` of the fsCache variant: walk the keys in
order; `readdir` the directory of the key (a throw is caught and the loop
continues); on the first non-empty listing, sort the children with the
comparator `statSync(a).mtimeMs - statSync(b).mtimeMs` (ascending) and
return `sortedKeys[0]` together with the directory. -/
def getCacheEntry (env : Env) (mtime : String → Int)
    (fs : String → Option (List String)) (keys paths : List String)
    (comp : Option String) (crossOs : Bool) : Option ArtifactCacheEntry :=
  match keys with
  | [] => none
  | k :: rest =>
    match fs (restoreDirOf env paths comp crossOs k) with
    | some files =>
      if files.isEmpty then getCacheEntry env mtime fs rest paths comp crossOs
      else
        let restoreDir := restoreDirOf env paths comp crossOs k
        let sortedKeys := sortJs
          (fun a b => decide (mtime (joinWith "/" [restoreDir, a]) ≤
                              mtime (joinWith "/" [restoreDir, b]))) files
        some { cacheKey := sortedKeys.headD "", archiveLocation := restoreDir }
    | none => getCacheEntry env mtime fs rest paths comp crossOs

/-- Embeds `restoreCache` of the unnamed variant.  `fs` models `readdir`,
`ext k` models the outcome of the size-report and `extractTar` steps for
the archive of the matched key `k` (`.error` when one of them throws).
After validation, the `try` block runs: a `null` lookup result becomes
`throw "cache entry not found"`, which the `catch` suppresses (a thrown
string has no `name` equal to `"ValidationError"`) so the call returns
`undefined`; a `ValidationError` thrown inside the block is re-thrown;
any other error is logged as a warning and the call returns `undefined`. -/
def restoreCache (env : Env) (fs : String → Option (List String))
    (ext : String → Except JsError Unit) (paths : List String)
    (primaryKey : String) (restoreKeys : List String) (comp : String)
    (crossOs : Bool) : Except JsError (Option String) :=
  match checkPaths paths with
  | .error e => .error e
  | .ok _ =>
    let keys := primaryKey :: restoreKeys
    if 10 < keys.length then
      .error (validationError
        "Key Validation Error: Keys are limited to a maximum of 10.")
    else
      match checkKeys keys with
      | .error e => .error e
      | .ok _ =>
        match getRestoreKey env fs keys paths (some comp) crossOs with
        | none => .ok none
        | some k =>
          match ext k with
          | .ok _ => .ok (some k)
          | .error e =>
            if e.name = "ValidationError" then .error e else .ok none

/-- Embeds `restoreCache` of the fsCache variant: identical validation and
error handling, but the lookup is `getCacheEntry` and the function returns
`cacheEntry.cacheKey` — the first-sorted child of the matched directory —
with the archive path `[archiveLocation, cacheKey].join("/")`. -/
def restoreCacheFs (env : Env) (mtime : String → Int)
    (fs : String → Option (List String)) (ext : String → Except JsError Unit)
    (paths : List String) (primaryKey : String) (restoreKeys : List String)
    (comp : String) (crossOs : Bool) : Except JsError (Option String) :=
  match checkPaths paths with
  | .error e => .error e
  | .ok _ =>
    let keys := primaryKey :: restoreKeys
    if 10 < keys.length then
      .error (validationError
        "Key Validation Error: Keys are limited to a maximum of 10.")
    else
      match checkKeys keys with
      | .error e => .error e
      | .ok _ =>
        match getCacheEntry env mtime fs keys paths (some comp) crossOs with
        | none => .ok none
        | some entry =>
          match ext (joinWith "/" [entry.archiveLocation, entry.cacheKey]) with
          | .ok _ => .ok (some entry.cacheKey)
          | .error e =>
            if e.name = "ValidationError" then .error e else .ok none

/-- The message of the plain `Error` thrown when no input path resolves
to an existing file. -/
def noPathsMsg : String :=
  "Path Validation Error: Path(s) specified in the action for caching do(es) not exist, hence no cache is being saved."

/-- Embeds `saveCache` (both variants agree on everything the claims
touch).  `resolved` models the output of `utils.resolvePaths(paths)` and
`tar` the outcome of the `createTar` / size-report block.  The result
pairs the returned value (or propagated error) with the `info`/`warning`
messages recorded by the `catch` clause. -/
def saveCache (_env : Env) (resolved : List String) (tar : Except JsError Unit)
    (paths : List String) (key : String) (_comp : String) (_crossOs : Bool) :
    Except JsError Int × List (LogLevel × String) :=
  match checkPaths paths with
  | .error e => (.error e, [])
  | .ok _ =>
    match checkKey key with
    | .error e => (.error e, [])
    | .ok _ =>
      if resolved.isEmpty then
        (.error (plainError noPathsMsg), [])
      else
        match tar with
        | .ok _ => (.ok 1, [])
        | .error e =>
          if e.name = "ValidationError" then (.error e, [])
          else if e.name = "ReserveCacheError" then
            (.ok (-1), [(LogLevel.info, "Failed to save: " ++ e.message)])
          else
            (.ok (-1), [(LogLevel.warning, "Failed to save: " ++ e.message)])

/-- Pushes `x` onto the array stored at handle `i` of an explicit array
store (JavaScript `arr.push(x)` mutates the array in place). -/
def pushAt (store : List (List String)) (i : Nat) (x : String) :
    List (List String) :=
  store.set i ((store.getD i []) ++ [x])

/-- Embeds `getCacheVersion` against an explicit store of mutable arrays,
to make its aliasing behaviour provable: the `paths` array of the caller lives
at handle `hPaths`; `paths.slice()` allocates a fresh array (a new handle
at the end of the store) holding a copy, and every subsequent `push`
targets that fresh handle only. -/
def getCacheVersionSt (hash : String → String) (store : List (List String))
    (hPaths : Nat) (comp : Option String) (isWin crossOs : Bool) :
    String × List (List String) :=
  let hc := store.length
  let s1 := store ++ [store.getD hPaths []]
  let s2 := match comp with
    | some c => pushAt s1 hc c
    | none => s1
  let s3 := if isWin && !crossOs then pushAt s2 hc "windows-only" else s2
  let s4 := pushAt s3 hc versionSalt
  (hash (joinWith "|" (s4.getD hc [])), s4)

/-- Whether the directory listing for key `k` succeeds and yields children —
the guard that stops the lookup loop of both variants. -/
def hasChildren (env : Env) (fs : String → Option (List String))
    (paths : List String) (comp : Option String) (crossOs : Bool)
    (k : String) : Bool :=
  match fs (restoreDirOf env paths comp crossOs k) with
  | some files => !files.isEmpty
  | none => false

/-
Concrete fixtures used to evaluate the models at specific inputs.
-/

/-- A concrete environment: digest modelled by the constant function
`"v"`, repository `"r"`, backend root `"c"`, not on Windows. -/
def envv : Env := ⟨fun _ => "v", "r", "c", false⟩

/-- A file system where only the directory of key `"k1"` exists and holds
the two children `"f1"` and `"f2"`. -/
def fs1 : String → Option (List String) :=
  fun d => if d = "c/cache/r/v/k1" then some ["f1", "f2"] else none

/-- Last-modified times for the children of `fs1`: `"f2"` is strictly more
recent than `"f1"`. -/
def mtime1 : String → Int :=
  fun p => if p = "c/cache/r/v/k1/f2" then 200 else 100

/-- A file system where every directory listing yields the single archive
file `"cache.tgz"`. -/
def fsAll : String → Option (List String) := fun _ => some ["cache.tgz"]

/-- A file system where every `readdir` throws (e.g. the backend root does
not exist at all). -/
def fsNone : String → Option (List String) := fun _ => none

/-- An extraction step that always succeeds. -/
def extOk : String → Except JsError Unit := fun _ => .ok ()

/-- A key of exactly 512 characters. -/
def key512 : String := String.mk (List.replicate 512 'a')

/-- A key of 513 characters. -/
def key513 : String := String.mk (List.replicate 513 'a')

/-
Helper lemmas shared by the claim theorems.
-/

theorem joinWith_cons (sep a : String) {l : List String} (h : l ≠ []) :
    joinWith sep (a :: l) = a ++ sep ++ joinWith sep l := by
  cases l with
  | nil => exact absurd rfl h
  | cons b t => rfl

theorem joinWith_append (sep : String) {l s : List String} (hl : l ≠ [])
    (hs : s ≠ []) :
    joinWith sep (l ++ s) = joinWith sep l ++ sep ++ joinWith sep s := by
  induction l with
  | nil => exact absurd rfl hl
  | cons a l ih =>
    cases l with
    | nil =>
      rw [List.singleton_append, joinWith_cons sep a hs]
      rfl
    | cons b t =>
      rw [List.cons_append, @joinWith_cons sep a ((b :: t) ++ s) (by simp),
        @joinWith_cons sep a (b :: t) (by simp), ih (by simp)]
      simp [String.append_assoc]

theorem strAppendCancelRight {a b c : String} (h : a ++ c = b ++ c) :
    a = b := by
  apply String.ext
  have h2 := congrArg String.data h
  simp only [String.data_append] at h2
  exact List.append_cancel_right h2

theorem strAppendCancelLeft {a b c : String} (h : a ++ b = a ++ c) :
    b = c := by
  apply String.ext
  have h2 := congrArg String.data h
  simp only [String.data_append] at h2
  exact List.append_cancel_left h2

theorem splitAtSep {x : List Char} :
    ∀ {y r1 r2 : List Char}, '|' ∉ x → '|' ∉ y →
      x ++ '|' :: r1 = y ++ '|' :: r2 → x = y ∧ r1 = r2 := by
  induction x with
  | nil =>
    intro y r1 r2 _ hy h
    cases y with
    | nil => simpa using h
    | cons d ys =>
      simp only [List.nil_append, List.cons_append, List.cons.injEq] at h
      exact absurd (h.1 ▸ List.mem_cons_self d ys) hy
  | cons c xs ih =>
    intro y r1 r2 hx hy h
    cases y with
    | nil =>
      simp only [List.cons_append, List.nil_append, List.cons.injEq] at h
      exact absurd (h.1 ▸ List.mem_cons_self c xs) hx
    | cons d ys =>
      simp only [List.cons_append, List.cons.injEq] at h
      obtain ⟨hcd, htail⟩ := h
      have hx2 : '|' ∉ xs := fun hm => hx (List.mem_cons_of_mem c hm)
      have hy2 : '|' ∉ ys := fun hm => hy (List.mem_cons_of_mem d hm)
      obtain ⟨h1, h2⟩ := ih hx2 hy2 htail
      exact ⟨by rw [hcd, h1], h2⟩

theorem joinWith_ne_single_change {p : List String} :
    ∀ {t : List String} {x y : String}, x ≠ y →
      joinWith "|" (p ++ x :: t) ≠ joinWith "|" (p ++ y :: t) := by
  induction p with
  | nil =>
    intro t x y hxy
    cases t with
    | nil => simpa [joinWith] using hxy
    | cons b t2 =>
      intro h
      rw [List.nil_append, List.nil_append,
        @joinWith_cons "|" x (b :: t2) (by simp),
        @joinWith_cons "|" y (b :: t2) (by simp)] at h
      exact hxy (strAppendCancelRight (strAppendCancelRight h))
  | cons a p ih =>
    intro t x y hxy h
    rw [List.cons_append, List.cons_append,
      @joinWith_cons "|" a (p ++ x :: t) (by simp),
      @joinWith_cons "|" a (p ++ y :: t) (by simp)] at h
    exact ih hxy (strAppendCancelLeft h)

theorem joinWith_inj_noSep :
    ∀ {l1 l2 : List String}, (∀ s ∈ l1, '|' ∉ s.data) →
      (∀ s ∈ l2, '|' ∉ s.data) → l1.length = l2.length →
      joinWith "|" l1 = joinWith "|" l2 → l1 = l2 := by
  intro l1
  induction l1 with
  | nil =>
    intro l2 _ _ hlen _
    cases l2 with
    | nil => rfl
    | cons b t => simp at hlen
  | cons x xs ih =>
    intro l2 hf1 hf2 hlen hj
    cases l2 with
    | nil => simp at hlen
    | cons y ys =>
      cases xs with
      | nil =>
        cases ys with
        | nil => simpa [joinWith] using hj
        | cons b t => simp at hlen
      | cons x2 xs2 =>
        cases ys with
        | nil => simp at hlen
        | cons y2 ys2 =>
          rw [@joinWith_cons "|" x (x2 :: xs2) (by simp),
            @joinWith_cons "|" y (y2 :: ys2) (by simp)] at hj
          have hdata := congrArg String.data hj
          simp only [String.data_append, List.append_assoc,
            List.singleton_append] at hdata
          obtain ⟨hxy, htail⟩ := splitAtSep
            (hf1 x (by simp)) (hf2 y (by simp)) hdata
          have hx : x = y := String.ext hxy
          have hrest : joinWith "|" (x2 :: xs2) = joinWith "|" (y2 :: ys2) :=
            String.ext htail
          have := ih (fun s hs => hf1 s (List.mem_cons_of_mem x hs))
            (fun s hs => hf2 s (List.mem_cons_of_mem y hs))
            (by simpa using hlen) hrest
          rw [hx, this]

theorem versionSuffix_ne_nil (comp : Option String) (isWin crossOs : Bool) :
    versionSuffix comp isWin crossOs ≠ [] := by
  cases comp <;> by_cases h : isWin && !crossOs <;> simp [versionSuffix, h]

theorem getRestoreKey_eq_find (env : Env) (fs : String → Option (List String))
    (paths : List String) (comp : Option String) (crossOs : Bool) :
    ∀ keys, getRestoreKey env fs keys paths comp crossOs =
      keys.find? (hasChildren env fs paths comp crossOs) := by
  intro keys
  induction keys with
  | nil => rfl
  | cons k rest ih =>
    rw [getRestoreKey, List.find?]
    cases hfs : fs (restoreDirOf env paths comp crossOs k) with
    | none => simp [hasChildren, hfs, ih]
    | some files =>
      cases hemp : files.isEmpty with
      | true => simp [hasChildren, hfs, hemp, ih]
      | false => simp [hasChildren, hfs, hemp]

theorem getRestoreKey_none_of_miss (env : Env)
    (fs : String → Option (List String)) (paths keys : List String)
    (comp : Option String) (crossOs : Bool)
    (hmiss : ∀ k ∈ keys,
      (fs (restoreDirOf env paths comp crossOs k)).getD [] = []) :
    getRestoreKey env fs keys paths comp crossOs = none := by
  rw [getRestoreKey_eq_find]
  rw [List.find?_eq_none]
  intro k hk
  have := hmiss k hk
  unfold hasChildren
  cases hfs : fs (restoreDirOf env paths comp crossOs k) with
  | none => simp
  | some files =>
    rw [hfs] at this
    simp only [Option.getD_some] at this
    simp [this]

theorem getRestoreKey_mem (env : Env) (fs : String → Option (List String))
    (paths : List String) (comp : Option String) (crossOs : Bool)
    {keys : List String} {k : String}
    (h : getRestoreKey env fs keys paths comp crossOs = some k) : k ∈ keys := by
  rw [getRestoreKey_eq_find] at h
  exact List.mem_of_find?_eq_some h

theorem checkPaths_ok {paths : List String} (h : paths ≠ []) :
    checkPaths paths = .ok () := by
  unfold checkPaths
  simp [h]

theorem checkKey_ok {key : String} (hlen : key.length ≤ 512)
    (hc : ',' ∉ key.data) : checkKey key = .ok () := by
  unfold checkKey
  rw [if_neg (by omega), if_neg (by simpa using hc)]

theorem checkKeys_ok {keys : List String}
    (h : ∀ k ∈ keys, checkKey k = .ok ()) : checkKeys keys = .ok () := by
  induction keys with
  | nil => rfl
  | cons k rest ih =>
    rw [checkKeys, h k (by simp)]
    exact ih fun k2 hk2 => h k2 (List.mem_cons_of_mem k hk2)

theorem restoreCache_valid (env : Env) (fs : String → Option (List String))
    (ext : String → Except JsError Unit) (paths : List String)
    (pk : String) (rks : List String) (comp : String) (crossOs : Bool)
    (hp : paths ≠ []) (hn : (pk :: rks).length ≤ 10)
    (hk : ∀ k ∈ pk :: rks, checkKey k = .ok ()) :
    restoreCache env fs ext paths pk rks comp crossOs =
      match getRestoreKey env fs (pk :: rks) paths (some comp) crossOs with
      | none => .ok none
      | some k =>
        match ext k with
        | .ok _ => .ok (some k)
        | .error e =>
          if e.name = "ValidationError" then .error e else .ok none := by
  have hn2 : rks.length + 1 ≤ 10 := by simpa using hn
  simp [restoreCache, checkPaths_ok hp, checkKeys_ok hk]
  intro hgt
  omega

theorem checkKey_error {key : String}
    (h : 512 < key.length ∨ ',' ∈ key.data) :
    ∃ e, checkKey key = .error e ∧ e.name = "ValidationError" := by
  by_cases hlen : 512 < key.length
  · refine ⟨validationError ("Key Validation Error: " ++ key ++
      " cannot be larger than 512 characters."), ?_, rfl⟩
    unfold checkKey
    rw [if_pos hlen]
  · have hc : ',' ∈ key.data := h.resolve_left hlen
    refine ⟨validationError ("Key Validation Error: " ++ key ++
      " cannot contain commas."), ?_, rfl⟩
    unfold checkKey
    rw [if_neg hlen, if_pos (by simpa using hc)]

/-
Claim theorems.
-/

/-- C1 (code evaluation at the failing input): at a directory with
children `f1` (mtime 100) and `f2` (mtime 200), `getCacheEntry` returns
`f1` — the least recently modified child — although the sibling `f2` is
strictly more recent.  The claim (and the comment in the code itself, which says
the children are sorted by last-modified time in descending order)
requires the most recently modified child; its comparator however sorts
ascending and index 0 is taken. -/
theorem getCacheEntry_picks_oldest_child :
    getCacheEntry envv mtime1 fs1 ["k1"] ["p"] (some "gzip") false =
      some { cacheKey := "f1", archiveLocation := "c/cache/r/v/k1" } ∧
    "f2" ∈ ["f1", "f2"] ∧
    mtime1 "c/cache/r/v/k1/f1" < mtime1 "c/cache/r/v/k1/f2" :=
  ⟨by decide, by decide, by decide⟩

/-- C2 (code evaluation at the failing input): with the single key `"k1"`
whose directory holds the archive file `"cache.tgz"` and a successful
extraction, `restoreCache` of the fsCache variant returns `"cache.tgz"` —
the first-sorted child file name — which is not an element of the
combined key list `["k1"]`, contradicting the claim (and the doc comment
of the function itself, which says the key for the cache hit is returned). -/
theorem restoreCacheFs_returns_child_not_key :
    restoreCacheFs envv mtime1 fsAll extOk ["p"] "k1" [] "gzip" false =
      .ok (some "cache.tgz") ∧
    "cache.tgz" ∉ ["k1"] :=
  ⟨by decide, by decide⟩

/-- C3: the lookup (`getRestoreKey`) walks the combined key list in the
caller-supplied order: at each key it stops and returns that key exactly
when the directory listing of the key succeeds with at least one child
(`hasChildren`); a failed listing (`fs` returning `none`, i.e. `readdir`
throwing) or an empty listing only advances the iteration and propagates
no error; overall the lookup equals `List.find?` of `hasChildren`, so it
returns `none` when no key yields children and never consults a key after
the first match. -/
theorem getRestoreKey_first_match :
    ∀ (env : Env) (fs : String → Option (List String)) (paths : List String)
      (comp : Option String) (crossOs : Bool),
    (∀ k rest, getRestoreKey env fs (k :: rest) paths comp crossOs =
      if hasChildren env fs paths comp crossOs k then some k
      else getRestoreKey env fs rest paths comp crossOs) ∧
    (∀ keys, getRestoreKey env fs keys paths comp crossOs =
      keys.find? (hasChildren env fs paths comp crossOs)) := by
  intro env fs paths comp crossOs
  constructor
  · intro k rest
    rw [getRestoreKey]
    unfold hasChildren
    cases hfs : fs (restoreDirOf env paths comp crossOs k) with
    | none => simp
    | some files =>
      cases hemp : files.isEmpty with
      | true => simp [hemp]
      | false => simp [hemp]
  · exact getRestoreKey_eq_find env fs paths comp crossOs

/-- C6: with valid inputs (non-empty path list, at most 10 combined keys,
every key passing validation) and no key matching any stored entry —
every directory listing failing or empty, which in particular covers a
backend root that does not exist at all — `restoreCache` returns `none`
(`Except.ok none`) and propagates no exception. -/
theorem restoreCache_graceful_miss (env : Env)
    (fs : String → Option (List String)) (ext : String → Except JsError Unit)
    (paths : List String) (pk : String) (rks : List String) (comp : String)
    (crossOs : Bool) (hp : paths ≠ []) (hn : (pk :: rks).length ≤ 10)
    (hk : ∀ k ∈ pk :: rks, checkKey k = .ok ())
    (hmiss : ∀ k ∈ pk :: rks,
      (fs (restoreDirOf env paths (some comp) crossOs k)).getD [] = []) :
    restoreCache env fs ext paths pk rks comp crossOs = .ok none := by
  rw [restoreCache_valid env fs ext paths pk rks comp crossOs hp hn hk,
    getRestoreKey_none_of_miss env fs paths (pk :: rks) (some comp) crossOs
      hmiss]

/-- C6 witness: a concrete miss — single key, backend root missing. -/
theorem restoreCache_graceful_miss_witness :
    restoreCache envv fsNone extOk ["p"] "k1" [] "gzip" false = .ok none :=
  restoreCache_graceful_miss envv fsNone extOk ["p"] "k1" [] "gzip" false
    (by decide) (by decide) (by decide) (by intro k hk2; rfl)

/-- C4: a key longer than 512 characters raises ValidationError; a key
containing a comma raises ValidationError; a restore call whose combined
key list exceeds 10 entries raises ValidationError; and an empty path
list raises ValidationError from both `saveCache` and `restoreCache`. -/
theorem validation_boundaries :
    (∀ key : String, 512 < key.length →
      ∃ e, checkKey key = .error e ∧ e.name = "ValidationError") ∧
    (∀ key : String, ',' ∈ key.data →
      ∃ e, checkKey key = .error e ∧ e.name = "ValidationError") ∧
    (∀ (env : Env) (fs : String → Option (List String))
      (ext : String → Except JsError Unit) (paths : List String)
      (pk : String) (rks : List String) (comp : String) (cr : Bool),
      10 < (pk :: rks).length →
      ∃ e, restoreCache env fs ext paths pk rks comp cr = .error e ∧
        e.name = "ValidationError") ∧
    (∀ (env : Env) (resolved : List String) (tar : Except JsError Unit)
      (key : String) (comp : String) (cr : Bool),
      ∃ e, (saveCache env resolved tar [] key comp cr).1 = .error e ∧
        e.name = "ValidationError") ∧
    (∀ (env : Env) (fs : String → Option (List String))
      (ext : String → Except JsError Unit) (pk : String) (rks : List String)
      (comp : String) (cr : Bool),
      ∃ e, restoreCache env fs ext [] pk rks comp cr = .error e ∧
        e.name = "ValidationError") := by
  refine ⟨fun key h => checkKey_error (Or.inl h),
    fun key h => checkKey_error (Or.inr h), ?_, ?_, ?_⟩
  · intro env fs ext paths pk rks comp cr h
    cases paths with
    | nil =>
      exact ⟨validationError
        "Path Validation Error: At least one directory or file path is required",
        rfl, rfl⟩
    | cons p ps =>
      refine ⟨validationError
        "Key Validation Error: Keys are limited to a maximum of 10.", ?_, rfl⟩
      have h2 : 10 < rks.length + 1 := by simpa using h
      simp [restoreCache, checkPaths_ok (show (p :: ps : List String) ≠ []
        from by simp), h2]
  · intro env resolved tar key comp cr
    exact ⟨validationError
      "Path Validation Error: At least one directory or file path is required",
      rfl, rfl⟩
  · intro env fs ext pk rks comp cr
    exact ⟨validationError
      "Path Validation Error: At least one directory or file path is required",
      rfl, rfl⟩

set_option maxRecDepth 8192 in
/-- C4 witness: the boundaries at concrete inputs — a 513-character key,
a comma key, an 11-key restore call, and empty path lists on both save
and restore. -/
theorem validation_boundaries_witness :
    (∃ e, checkKey key513 = .error e ∧ e.name = "ValidationError") ∧
    (∃ e, checkKey "a,b" = .error e ∧ e.name = "ValidationError") ∧
    (∃ e, restoreCache envv fsNone extOk ["p"] "k"
      ["r1", "r2", "r3", "r4", "r5", "r6", "r7", "r8", "r9", "r10"]
      "gzip" false = .error e ∧ e.name = "ValidationError") ∧
    (∃ e, (saveCache envv ["rp"] (.ok ()) [] "k" "gzip" false).1 = .error e ∧
      e.name = "ValidationError") ∧
    (∃ e, restoreCache envv fsNone extOk [] "k" [] "gzip" false = .error e ∧
      e.name = "ValidationError") :=
  ⟨validation_boundaries.1 key513 (by decide),
   validation_boundaries.2.1 "a,b" (by decide),
   validation_boundaries.2.2.1 envv fsNone extOk ["p"] "k"
     ["r1", "r2", "r3", "r4", "r5", "r6", "r7", "r8", "r9", "r10"]
     "gzip" false (by decide),
   validation_boundaries.2.2.2.1 envv ["rp"] (.ok ()) "k" "gzip" false,
   validation_boundaries.2.2.2.2 envv fsNone extOk "k" [] "gzip" false⟩

/-- C5: after validation and path resolution succeed, a failing archive
step (`createTar` block) whose error is not a ValidationError is not
propagated by `saveCache`: the call returns the sentinel `-1` and records
one message — `info` for the `ReserveCacheError` sub-class, `warning`
otherwise; a ValidationError thrown there is re-raised. -/
theorem saveCache_soft_failure (env : Env) (resolved : List String)
    (tar : Except JsError Unit) (paths : List String) (key : String)
    (comp : String) (cr : Bool) (hp : paths ≠ [])
    (hkey : checkKey key = .ok ()) (hres : resolved ≠ []) :
    (∀ e, tar = .error e → e.name ≠ "ValidationError" →
      (saveCache env resolved tar paths key comp cr).1 = .ok (-1) ∧
      (saveCache env resolved tar paths key comp cr).2 =
        [(if e.name = "ReserveCacheError" then LogLevel.info
          else LogLevel.warning, "Failed to save: " ++ e.message)]) ∧
    (∀ e, tar = .error e → e.name = "ValidationError" →
      (saveCache env resolved tar paths key comp cr).1 = .error e) := by
  have hresb : resolved.isEmpty = false := by
    cases resolved with
    | nil => exact absurd rfl hres
    | cons a l => rfl
  constructor
  · intro e hte hne
    subst hte
    refine ⟨?_, ?_⟩ <;> by_cases hr : e.name = "ReserveCacheError" <;>
      simp [saveCache, checkPaths_ok hp, hkey, hresb, hne, hr]
  · intro e hte hve
    subst hte
    simp [saveCache, checkPaths_ok hp, hkey, hresb, hve]

/-- C5 witness: a concrete non-validation tar failure yields `-1` and a
warning; the hypotheses hold at the chosen inputs. -/
theorem saveCache_soft_failure_witness :
    (saveCache envv ["rp"] (.error ⟨"TypeError", "boom"⟩) ["p"] "k" "gzip"
      false).1 = .ok (-1) ∧
    (saveCache envv ["rp"] (.error ⟨"TypeError", "boom"⟩) ["p"] "k" "gzip"
      false).2 =
      [(if ("TypeError" : String) = "ReserveCacheError" then LogLevel.info
        else LogLevel.warning, "Failed to save: " ++ "boom")] :=
  (saveCache_soft_failure envv ["rp"] (.error ⟨"TypeError", "boom"⟩) ["p"]
    "k" "gzip" false (by decide) (by decide) (by decide)).1
    ⟨"TypeError", "boom"⟩ rfl (by decide)

/-- C7: when the input patterns resolve to no real file-system path,
`saveCache` raises a plain `Error` (name `"Error"`) that is propagated to
the caller — not converted to the `-1` sentinel — and whose kind differs
from ValidationError. -/
theorem saveCache_no_resolved_paths (env : Env) (tar : Except JsError Unit)
    (paths : List String) (key : String) (comp : String) (cr : Bool)
    (hp : paths ≠ []) (hkey : checkKey key = .ok ()) :
    (saveCache env [] tar paths key comp cr).1 =
      .error (plainError noPathsMsg) ∧
    (plainError noPathsMsg).name = "Error" ∧
    (plainError noPathsMsg).name ≠ "ValidationError" := by
  refine ⟨?_, rfl, by decide⟩
  simp [saveCache, checkPaths_ok hp, hkey]

/-- C7 witness: the propagated path error at a concrete call. -/
theorem saveCache_no_resolved_paths_witness :
    (saveCache envv [] (.ok ()) ["p"] "k" "gzip" false).1 =
      .error (plainError noPathsMsg) ∧
    (plainError noPathsMsg).name = "Error" ∧
    (plainError noPathsMsg).name ≠ "ValidationError" :=
  saveCache_no_resolved_paths envv (.ok ()) ["p"] "k" "gzip" false
    (by decide) (by decide)

/-- C8 counterexample: reordering the path list does NOT always change
the fingerprint.  The distinct reorderings `["a", "a|a"]` and
`["a|a", "a"]` produce the same joined component string
(`"a|a|a|gzip|1.0"`), hence the same digest for every hash function —
the claim as stated is false because a path may contain the join
separator `|`. -/
theorem getCacheVersion_reorder_collision :
    getCacheVersion id ["a", "a|a"] (some "gzip") false false =
      getCacheVersion id ["a|a", "a"] (some "gzip") false false ∧
    (["a", "a|a"] : List String) ≠ ["a|a", "a"] ∧
    (["a", "a|a"] : List String).Perm ["a|a", "a"] :=
  ⟨by decide, by decide, by decide⟩

/-- C8 (amended): under collision-freeness of the digest (injectivity of
`hash`), changing any single path of the list changes the fingerprint,
changing the compression method changes the fingerprint, and reordering
the paths changes the fingerprint provided the reordered sequence is
actually different and no path contains the separator character `|`. -/
theorem getCacheVersion_sensitivity (hash : String → String)
    (hinj : Function.Injective hash) :
    (∀ (p t : List String) (x y : String) (comp : Option String)
      (w cr : Bool), x ≠ y →
      getCacheVersion hash (p ++ x :: t) comp w cr ≠
        getCacheVersion hash (p ++ y :: t) comp w cr) ∧
    (∀ (paths : List String) (c c2 : String) (w cr : Bool), c ≠ c2 →
      getCacheVersion hash paths (some c) w cr ≠
        getCacheVersion hash paths (some c2) w cr) ∧
    (∀ (paths paths2 : List String) (comp : Option String) (w cr : Bool),
      paths.Perm paths2 → paths ≠ paths2 → (∀ s ∈ paths, '|' ∉ s.data) →
      getCacheVersion hash paths comp w cr ≠
        getCacheVersion hash paths2 comp w cr) := by
  refine ⟨?_, ?_, ?_⟩
  · intro p t x y comp w cr hxy h
    unfold getCacheVersion at h
    have h2 := hinj h
    unfold getCacheVersionInput getCacheVersionComponents at h2
    rw [List.append_assoc, List.append_assoc, List.cons_append,
      List.cons_append] at h2
    exact joinWith_ne_single_change hxy h2
  · intro paths c c2 w cr hne h
    unfold getCacheVersion at h
    have h2 := hinj h
    unfold getCacheVersionInput getCacheVersionComponents versionSuffix at h2
    simp only [List.append_assoc, List.cons_append, List.singleton_append]
      at h2
    exact joinWith_ne_single_change hne h2
  · intro paths paths2 comp w cr hperm hne hfree h
    unfold getCacheVersion at h
    have h2 := hinj h
    have hne1 : paths ≠ [] := by
      intro hp0
      subst hp0
      exact hne (List.Perm.eq_nil hperm.symm).symm
    have hne2 : paths2 ≠ [] := by
      intro hp0
      subst hp0
      exact hne1 (List.Perm.eq_nil hperm)
    unfold getCacheVersionInput getCacheVersionComponents at h2
    rw [joinWith_append "|" hne1 (versionSuffix_ne_nil comp w cr),
      joinWith_append "|" hne2 (versionSuffix_ne_nil comp w cr)] at h2
    have h3 := strAppendCancelRight (strAppendCancelRight h2)
    have hfree2 : ∀ s ∈ paths2, '|' ∉ s.data :=
      fun s hs => hfree s (hperm.mem_iff.mpr hs)
    exact hne (joinWith_inj_noSep hfree hfree2 hperm.length_eq h3)

/-- C8 witness: the amended sensitivity at concrete inputs — changing the
single path `"a"` to `"b"` changes the fingerprint. -/
theorem getCacheVersion_sensitivity_witness :
    getCacheVersion id ["a"] (some "gzip") false false ≠
      getCacheVersion id ["b"] (some "gzip") false false :=
  (getCacheVersion_sensitivity id fun a b hab => hab).1 [] [] "a" "b"
    (some "gzip") false false (by decide)

/-- C9: `getCacheVersion` never mutates the `paths` array of the caller: in
the explicit array-store embedding, the store entry holding the
list is identical before and after the call — `paths.slice()` copies the
array and every `push` targets the copy. -/
theorem getCacheVersionSt_frame (hash : String → String)
    (store : List (List String)) (h : Nat) (comp : Option String)
    (isWin crossOs : Bool) (hlt : h < store.length) :
    ((getCacheVersionSt hash store h comp isWin crossOs).2)[h]? =
      store[h]? := by
  have hne : store.length ≠ h := (Nat.ne_of_lt hlt).symm
  have happ : ∀ z : List String, (store ++ [z])[h]? = store[h]? := by
    intro z
    rw [List.getElem?_append]
    simp [hlt]
  have hpush : ∀ (s : List (List String)) (x : String),
      (pushAt s store.length x)[h]? = s[h]? := by
    intro s x
    unfold pushAt
    exact List.getElem?_set_ne hne
  cases comp with
  | none =>
    by_cases hw : (isWin && !crossOs) = true <;>
      simp [getCacheVersionSt, hw, hpush, happ]
  | some c =>
    by_cases hw : (isWin && !crossOs) = true <;>
      simp [getCacheVersionSt, hw, hpush, happ]

/-- C9 witness: a concrete store with one paths array at handle 0 is
untouched by the call. -/
theorem getCacheVersionSt_frame_witness :
    ((getCacheVersionSt id [["p1", "p2"]] 0 (some "gzip") false
      false).2)[0]? = [["p1", "p2"]][0]? :=
  getCacheVersionSt_frame id [["p1", "p2"]] 0 (some "gzip") false false
    (by decide)

set_option maxRecDepth 8192 in
/-- C10: `checkKey` raises (a ValidationError) iff the key is longer than
512 characters or contains a comma; every error it produces has name
`ValidationError`; and in particular the 512-character key and the empty
key are accepted without error — both by `checkKey` itself and by full
`saveCache` and `restoreCache` calls using them. -/
theorem checkKey_boundary_iff :
    (∀ key : String, (∃ e, checkKey key = .error e) ↔
      (512 < key.length ∨ ',' ∈ key.data)) ∧
    (∀ (key : String) (e : JsError), checkKey key = .error e →
      e.name = "ValidationError") ∧
    checkKey key512 = .ok () ∧
    checkKey "" = .ok () ∧
    (saveCache envv ["rp"] (.ok ()) ["p"] key512 "gzip" false).1 = .ok 1 ∧
    (saveCache envv ["rp"] (.ok ()) ["p"] "" "gzip" false).1 = .ok 1 ∧
    restoreCache envv fsNone extOk ["p"] key512 [] "gzip" false = .ok none ∧
    restoreCache envv fsNone extOk ["p"] "" [] "gzip" false = .ok none := by
  refine ⟨?_, ?_, by decide, by decide, by decide, by decide, by decide,
    by decide⟩
  · intro key
    constructor
    · rintro ⟨e, he⟩
      by_contra hcon
      push_neg at hcon
      rw [checkKey_ok (by omega) hcon.2] at he
      cases he
    · intro hor
      obtain ⟨e, he, _⟩ := checkKey_error hor
      exact ⟨e, he⟩
  · intro key e he
    unfold checkKey at he
    split at he
    · injection he with h1
      rw [← h1]
      rfl
    · split at he
      · injection he with h1
        rw [← h1]
        rfl
      · cases he

/-- C10 witness: the iff applied at a concrete comma key, together with
the concrete acceptance of the 512-character key. -/
theorem checkKey_boundary_iff_witness :
    (∃ e, checkKey "a,b" = .error e) ∧ checkKey "" = .ok () :=
  ⟨(checkKey_boundary_iff.1 "a,b").mpr (Or.inr (by decide)),
   checkKey_boundary_iff.2.2.2.1⟩
